import Mathlib

/-!
Formal model of the hype-arb-engine market-data adapters.

This file embeds the two API clients of the repository —
`HyperliquidClient` (`src/lib/hyperliquid/client.ts`) and `BorosClient`
(`src/lib/boros/client.ts`) — as pure Lean functions over an explicit
model of JSON values and HTTP request outcomes, and embeds the
WebSocket subscription lifecycle of `HyperliquidClient`
(`subscribeToUpdates` / `disconnect` and the 5-second reconnect loop)
as a small-step event machine.  Theorems about these definitions settle
the specification's claims about the adapters.
-/

namespace HypeArb

/-! ## JSON value model

JavaScript values produced by `response.json()` / `JSON.parse`.
Numbers are modelled as rationals (all literals appearing in the code
are exactly representable).  Object fields are an association list;
`JSON.parse` output has unique keys.
-/

inductive Json where
  | null
  | bool (b : Bool)
  | num (q : ℚ)
  | str (s : String)
  | arr (elems : List Json)
  | obj (fields : List (String × Json))

/-- JS property access `j.k` for a data value: only objects carry
fields; the missing-property result `undefined` is `none`. -/
def jsonLookup : Json → String → Option Json
  | .obj fs, k => fs.lookup k
  | _, _ => none

/-- JS truthiness, as used by `||` defaults and `if (!x)` checks. -/
def Json.truthy : Json → Bool
  | .null => false
  | .bool b => b
  | .num q => q != 0
  | .str s => s != ""
  | .arr _ => true
  | .obj _ => true

/-- Whether a JSON value is a string (`typeof x === "string"`). -/
def Json.isStr : Json → Bool
  | .str _ => true
  | _ => false

/-- JS `Object.entries`: fields of an object, indexed elements of an
array or string, empty for the remaining primitives (`Object.entries`
of `null` throws and is handled at each call site). -/
def jsEntries : Json → List (String × Json)
  | .obj fs => fs
  | .arr xs => xs.enum.map (fun p => (toString p.1, p.2))
  | .str s => s.data.enum.map (fun p => (toString p.1, Json.str (String.singleton p.2)))
  | _ => []

/-- JS `data.k || dflt` on a non-null data value: the field when
present and truthy, otherwise the default. -/
def fieldOr (b : Json) (k : String) (dflt : Json) : Json :=
  match jsonLookup b k with
  | some v => if v.truthy then v else dflt
  | none => dflt

/-! ## HTTP request outcomes

The outcome of one `fetch` + `response.json()` round trip, which is
the only effect the REST methods perform.  `netFail` is a rejected
`fetch` (network error); `resp st body` is a response with HTTP status
`st` whose body either parses to a JSON value or fails to parse.
-/

inductive HttpResult where
  | netFail (msg : String)
  | resp (status : ℕ) (body : Except String Json)

/-- `response.ok`: status in the 200–299 range. -/
def okStatus (st : ℕ) : Bool := 200 ≤ st && st < 300

/-- The message of the error thrown on a non-ok status:
`HTTP error! status: <st>`. -/
def statusMsg (st : ℕ) : String := "HTTP error! status: " ++ toString st

/-! ## parseFloat model

`parseFloat` on the decimal strings this API serves (optional leading
minus sign, digits, optional fractional part).  The general theorems
are parameterised over an abstract `pf : Json → ℚ` standing for
JS `parseFloat` (which coerces its argument to a string first); this
concrete parser is used to evaluate the specification's concrete
examples.
-/

/-- Value of a digit sequence read left to right. -/
def digitsVal (cs : List Char) : ℕ :=
  cs.foldl (fun a c => a * 10 + (c.toNat - 48)) 0

/-- Parse a signed decimal string into a rational. -/
def parseRat (s : String) : ℚ :=
  let signSplit : ℚ × List Char :=
    match s.data with
    | '-' :: cs => (-1, cs)
    | cs => (1, cs)
  let ip := signSplit.2.takeWhile Char.isDigit
  let rest := signSplit.2.drop ip.length
  let fp :=
    match rest with
    | '.' :: cs => cs.takeWhile Char.isDigit
    | _ => []
  signSplit.1 * ((digitsVal ip : ℚ) + (digitsVal fp : ℚ) / 10 ^ fp.length)

/-- `parseFloat` applied to an arbitrary JS value: strings are parsed,
numbers pass through, other values are outside the inputs this code
receives. -/
def pfJS : Json → ℚ
  | .str s => parseRat s
  | .num q => q
  | _ => 0

/-! ## HyperliquidClient REST methods -/

/-- Typed failures of the venue adapter: upstream transport/status/parse
errors (each rethrown `catch` site) and the missing-symbol error. -/
inductive ClientError where
  | upstream (msg : String)
  | notFound (msg : String)
deriving DecidableEq

/-- `getCurrentPrice`: POST `{type: "allMids"}`, require ok status and a
parsed body, look up the hardcoded `HYPE` field, throw `NotFound` when it
is absent or falsy, else return its parsed float. -/
def getCurrentPrice (pf : Json → ℚ) (r : HttpResult) : Except ClientError ℚ :=
  match r with
  | .netFail m => .error (.upstream m)
  | .resp st body =>
    if okStatus st then
      match body with
      | .error m => .error (.upstream m)
      | .ok .null => .error (.upstream "TypeError: cannot read properties of null")
      | .ok b =>
        match jsonLookup b "HYPE" with
        | some v =>
          if v.truthy then .ok (pf v)
          else .error (.notFound "HYPE price not found in response")
        | none => .error (.notFound "HYPE price not found in response")
    else .error (.upstream (statusMsg st))

/-- The mid-price conversion loop of `getAllMidPrices`: every
string-valued entry of the body, parsed; other entries skipped. -/
def midPricesOf (pf : Json → ℚ) (b : Json) : List (String × ℚ) :=
  (jsEntries b).filterMap (fun kv =>
    match kv.2 with
    | .str s => some (kv.1, pf (.str s))
    | _ => none)

/-- `getAllMidPrices`: POST `{type: "allMids"}`, require ok status and a
parsed body, convert string prices to numbers. -/
def getAllMidPrices (pf : Json → ℚ) (r : HttpResult) : Except ClientError (List (String × ℚ)) :=
  match r with
  | .netFail m => .error (.upstream m)
  | .resp st body =>
    if okStatus st then
      match body with
      | .error m => .error (.upstream m)
      | .ok .null => .error (.upstream "TypeError: cannot convert null to object")
      | .ok b => .ok (midPricesOf pf b)
    else .error (.upstream (statusMsg st))

/-- Order book snapshot: bid and ask levels as (price, size) pairs. -/
structure OrderBook where
  bids : List (ℚ × ℚ)
  asks : List (ℚ × ℚ)
  timestamp : ℤ
deriving DecidableEq

/-- One raw level `{px, sz}` parsed as in
`[parseFloat(level.px), parseFloat(level.sz)]`. -/
def parseLevel (pf : Json → ℚ) (l : Json) : ℚ × ℚ :=
  (pf ((jsonLookup l "px").getD .null), pf ((jsonLookup l "sz").getD .null))

/-- `getOrderBook`: POST `{type: "l2Book", coin}`; map the raw levels to
parsed pairs, keep positive sizes as bids, negative sizes (absolute
value taken) as asks; a missing or null `levels` field yields empty
sides via `?.` and `|| []`; a non-array `levels` value makes `.map`
throw, which is rethrown. -/
def getOrderBook (pf : Json → ℚ) (now : ℤ) (r : HttpResult) : Except ClientError OrderBook :=
  match r with
  | .netFail m => .error (.upstream m)
  | .resp st body =>
    if okStatus st then
      match body with
      | .error m => .error (.upstream m)
      | .ok .null => .error (.upstream "TypeError: cannot read properties of null")
      | .ok b =>
        match jsonLookup b "levels" with
        | none => .ok ⟨[], [], now⟩
        | some .null => .ok ⟨[], [], now⟩
        | some (.arr ls) =>
          let parsed := ls.map (parseLevel pf)
          .ok ⟨parsed.filter (fun p => decide (0 < p.2)),
               (parsed.filter (fun p => decide (p.2 < 0))).map (fun p => (p.1, |p.2|)),
               now⟩
        | some _ => .error (.upstream "TypeError: levels.map is not a function")
    else .error (.upstream (statusMsg st))

/-! ## BorosClient REST methods

Each read method performs one `fetch`; a thrown error (network failure,
the non-ok-status throw, a body-parse failure, or a property access on
a `null` body) is caught and replaced by the method's fallback.  On a
parsed non-null body the result is the raw `data.<field> || <empty>`
value, so results are kept as `Json`.
-/

/-- Milliseconds per day, `24 * 60 * 60 * 1000`. -/
def msPerDay : ℤ := 24 * 60 * 60 * 1000

/-- Per-asset base funding rate of the mock generator:
`0.0001` for BTC, `0.00005` otherwise. -/
def baseRate (asset : String) : ℚ :=
  if asset = "BTC" then 1 / 10000 else 1 / 20000

/-- `getMockHistoricalRates`: the loop `for (i = days; i >= 0; i--)`
pushing `(now - i*msPerDay, base + (random() - 0.5) * 0.00005)`;
`rand j` is the value of the `j`-th `Math.random()` call. -/
def getMockHistoricalRates (rand : ℕ → ℚ) (now : ℤ) (asset : String) (days : ℕ) :
    List (ℤ × ℚ) :=
  (List.range (days + 1)).map (fun j =>
    (now - ((days - j : ℕ) : ℤ) * msPerDay,
     baseRate asset + (rand j - 1 / 2) * (1 / 20000)))

/-- JSON encoding of one `{timestamp, rate}` point. -/
def encodePoint (p : ℤ × ℚ) : Json :=
  .obj [("timestamp", .num (p.1 : ℚ)), ("rate", .num p.2)]

/-- `getHistoricalRates`: GET `historical-rates/{asset}?days={days}`;
any thrown error is replaced by the mock series, a successful non-null
body yields `data.rates || []`. -/
def getHistoricalRates (rand : ℕ → ℚ) (now : ℤ) (asset : String) (days : ℕ)
    (r : HttpResult) : Json :=
  match r with
  | .netFail _ => .arr ((getMockHistoricalRates rand now asset days).map encodePoint)
  | .resp st body =>
    if okStatus st then
      match body with
      | .error _ => .arr ((getMockHistoricalRates rand now asset days).map encodePoint)
      | .ok .null => .arr ((getMockHistoricalRates rand now asset days).map encodePoint)
      | .ok b => fieldOr b "rates" (.arr [])
    else .arr ((getMockHistoricalRates rand now asset days).map encodePoint)

/-- The fixed fallback funding-rate mapping `{BTC: 0.0001, ETH: 0.00005}`. -/
def fallbackRates : Json :=
  .obj [("BTC", .num (1 / 10000)), ("ETH", .num (1 / 20000))]

/-- `getFundingRates`: GET `funding-rates`; any thrown error is replaced
by the fixed fallback mapping, a successful non-null body yields
`data.rates || {}`. -/
def getFundingRates (r : HttpResult) : Json :=
  match r with
  | .netFail _ => fallbackRates
  | .resp st body =>
    if okStatus st then
      match body with
      | .error _ => fallbackRates
      | .ok .null => fallbackRates
      | .ok b => fieldOr b "rates" (.obj [])
    else fallbackRates

/-- A yield unit as built by `getMockYieldUnits` (the `maturity` Date is
kept as its epoch-milliseconds timestamp). -/
structure YieldUnit where
  id : String
  asset : String
  maturity : ℤ
  currentRate : ℚ
  impliedRate : ℚ
  price : ℚ
  volume : ℚ
deriving DecidableEq

/-- `getMockYieldUnits`: the fixed two-element mock list (one BTC unit,
one ETH unit, maturities 30 days from now). -/
def getMockYieldUnits (now : ℤ) : List YieldUnit :=
  [⟨"yu-btc-001", "BTC", now + 30 * msPerDay, 1 / 10000, 12 / 100000, 98 / 100, 1500000⟩,
   ⟨"yu-eth-001", "ETH", now + 30 * msPerDay, 1 / 20000, 8 / 100000, 99 / 100, 2500000⟩]

/-- JSON encoding of a yield unit. -/
def encodeYieldUnit (u : YieldUnit) : Json :=
  .obj [("id", .str u.id), ("asset", .str u.asset), ("maturity", .num (u.maturity : ℚ)),
        ("currentRate", .num u.currentRate), ("impliedRate", .num u.impliedRate),
        ("price", .num u.price), ("volume", .num u.volume)]

/-- `getYieldUnits`: GET `yield-units`; any thrown error is replaced by
the two-element mock list, a successful non-null body yields
`data.yieldUnits || []`. -/
def getYieldUnits (now : ℤ) (r : HttpResult) : Json :=
  match r with
  | .netFail _ => .arr ((getMockYieldUnits now).map encodeYieldUnit)
  | .resp st body =>
    if okStatus st then
      match body with
      | .error _ => .arr ((getMockYieldUnits now).map encodeYieldUnit)
      | .ok .null => .arr ((getMockYieldUnits now).map encodeYieldUnit)
      | .ok b => fieldOr b "yieldUnits" (.arr [])
    else .arr ((getMockYieldUnits now).map encodeYieldUnit)

/-- `getPositions`: GET `positions/{userAddress}`; any thrown error is
replaced by the empty list, a successful non-null body yields
`data.positions || []`. -/
def getPositions (userAddress : String) (r : HttpResult) : Json :=
  match r, userAddress with
  | .netFail _, _ => .arr []
  | .resp st body, _ =>
    if okStatus st then
      match body with
      | .error _ => .arr []
      | .ok .null => .arr []
      | .ok b => fieldOr b "positions" (.arr [])
    else .arr []

/-- Result value of `placeTrade`. -/
structure TradeResult where
  success : Bool
  tradeId : Option Json
  error : Option String

/-- `placeTrade`: POST `trade`; every thrown error is caught and wrapped
into `{success: false, error: message}`; a successful non-null body
yields `{success: true, tradeId: data.tradeId}`. -/
def placeTrade (r : HttpResult) : TradeResult :=
  match r with
  | .netFail m => ⟨false, none, some m⟩
  | .resp st body =>
    if okStatus st then
      match body with
      | .error m => ⟨false, none, some m⟩
      | .ok .null => ⟨false, none, some "TypeError: cannot read properties of null"⟩
      | .ok b => ⟨true, jsonLookup b "tradeId", none⟩
    else ⟨false, none, some (statusMsg st)⟩

/-! ## WebSocket subscription lifecycle

A small-step event machine for `subscribeToUpdates` / `disconnect` and
the transport callbacks.  Connections are identified by creation order;
`cb` tags the callback closure a connection was opened with.  Per the
single-threaded event-loop model of §5, events are delivered one at a
time.  `Event.closeEvt` is the delivery of a connection's `onclose`
(clean close, error-induced close, or the close requested by
`disconnect`); the handler schedules the reconnect timer for 5000 ms
later.  `Event.timerFire` is the run of a scheduled reconnect callback,
which the runtime delivers no earlier than its due time.
-/

/-- Status of one WebSocket object. -/
inductive ConnStatus where
  | connecting
  | opened
  | closing
  | closed
deriving DecidableEq

/-- One WebSocket object: the callback it was created with and its
current status. -/
structure ConnInfo where
  cb : ℕ
  status : ConnStatus
deriving DecidableEq

/-- Adapter state: current time (ms), the id counter, the
`wsConnection` field, every WebSocket object created so far, and the
pending reconnect timers `(dueTime, cb)`. -/
structure AdapterState where
  time : ℕ
  nextId : ℕ
  wsConnection : Option ℕ
  conns : List (ℕ × ConnInfo)
  timers : List (ℕ × ℕ)
deriving DecidableEq

/-- A fresh adapter: no connection ever created. -/
def initState : AdapterState := ⟨0, 0, none, [], []⟩

/-- Events: time passing, external `subscribeToUpdates` and
`disconnect` calls, transport `onopen`/`onclose` deliveries, and the
firing of a scheduled reconnect. -/
inductive Event where
  | tick (d : ℕ)
  | subscribeCall (cb : ℕ)
  | openEvt (id : ℕ)
  | closeEvt (id : ℕ)
  | timerFire (due cb : ℕ)
  | disconnectCall
deriving DecidableEq

/-- Effect of `subscribeToUpdates(cb)`: construct a new WebSocket and
overwrite `wsConnection` with it.  The previous connection, if any, is
neither closed nor dereferenced anywhere else. -/
def openConn (s : AdapterState) (cb : ℕ) : AdapterState :=
  { s with conns := (s.nextId, ⟨cb, .connecting⟩) :: s.conns,
           wsConnection := some s.nextId,
           nextId := s.nextId + 1 }

/-- `close()` on a WebSocket: a live connection starts closing; a
closing or closed one is unchanged. -/
def closeStatus : ConnStatus → ConnStatus
  | .connecting => .closing
  | .opened => .closing
  | st => st

/-- Apply `f` to the status of the connection with the given id. -/
def updateConn (f : ConnStatus → ConnStatus) (id : ℕ) :
    List (ℕ × ConnInfo) → List (ℕ × ConnInfo)
  | [] => []
  | p :: rest =>
    if p.1 = id then (p.1, ⟨p.2.cb, f p.2.status⟩) :: rest
    else p :: updateConn f id rest

/-- `disconnect()`: when a connection is referenced, request its close
and clear the reference; otherwise do nothing.  It cannot throw. -/
def disconnectRun (s : AdapterState) : AdapterState :=
  match s.wsConnection with
  | none => s
  | some id => { s with wsConnection := none,
                        conns := updateConn closeStatus id s.conns }

/-- One event step.  `none` means the event cannot occur in this state
(the transport only delivers `onopen` to a connecting socket and
`onclose` once per socket; a timer only fires if scheduled and due). -/
def applyEvent (s : AdapterState) : Event → Option AdapterState
  | .tick d => some { s with time := s.time + d }
  | .subscribeCall cb => some (openConn s cb)
  | .openEvt id =>
    match s.conns.lookup id with
    | some info =>
      if info.status = .connecting then
        some { s with conns := updateConn (fun _ => .opened) id s.conns }
      else none
    | none => none
  | .closeEvt id =>
    match s.conns.lookup id with
    | some info =>
      if info.status = .closed then none
      else some { s with conns := updateConn (fun _ => .closed) id s.conns,
                         timers := (s.time + 5000, info.cb) :: s.timers }
    | none => none
  | .timerFire due cb =>
    if (due, cb) ∈ s.timers ∧ due ≤ s.time then
      some (openConn { s with timers := s.timers.erase (due, cb) } cb)
    else none
  | .disconnectCall => some (disconnectRun s)

/-- Run a sequence of events from the fresh adapter. -/
def runEvents (es : List Event) : Option AdapterState :=
  es.foldlM applyEvent initState

/-- Number of live (not yet fully closed) connections. -/
def liveCount (s : AdapterState) : ℕ :=
  (s.conns.filter (fun p => p.2.status != .closed)).length

/-- Number of external `subscribeToUpdates` calls in an event list. -/
def subCount (es : List Event) : ℕ :=
  es.countP (fun e =>
    match e with
    | .subscribeCall _ => true
    | _ => false)

/-! ## Lifecycle lemmas

`liveCount s + s.timers.length` is conserved by every event except an
external `subscribeToUpdates` call, which increases it by one: a close
converts a live connection into a pending reconnect timer and a timer
firing converts back.
-/

/-- Live contribution of one connection status. -/
def liveBit (st : ConnStatus) : ℕ := if st = .closed then 0 else 1

/-- Live connections in a connection list. -/
def liveLen (l : List (ℕ × ConnInfo)) : ℕ :=
  (l.filter (fun p => p.2.status != ConnStatus.closed)).length

/-- Live connections plus pending reconnect timers. -/
def tokenCount (s : AdapterState) : ℕ := liveCount s + s.timers.length

/-- Whether an event is an external subscribe call. -/
def isSub : Event → Bool
  | .subscribeCall _ => true
  | _ => false

theorem liveCount_eq_liveLen (s : AdapterState) : liveCount s = liveLen s.conns := rfl

theorem tokenCount_def (s : AdapterState) :
    tokenCount s = liveLen s.conns + s.timers.length := rfl

theorem lookup_cons_pair (id a : ℕ) (b : ConnInfo) (rest : List (ℕ × ConnInfo)) :
    ((a, b) :: rest).lookup id = if id = a then some b else rest.lookup id := by
  by_cases h : id = a
  · subst h; simp [List.lookup]
  · have hb : (id == a) = false := by simp [h]
    simp [List.lookup, hb, h]

theorem liveLen_cons (a : ℕ) (i : ConnInfo) (rest : List (ℕ × ConnInfo)) :
    liveLen ((a, i) :: rest) = liveBit i.status + liveLen rest := by
  by_cases h : i.status = ConnStatus.closed <;>
    simp [liveLen, liveBit, List.filter_cons, h, Nat.add_comm]

theorem updateConn_cons (f : ConnStatus → ConnStatus) (id a : ℕ) (b : ConnInfo)
    (rest : List (ℕ × ConnInfo)) :
    updateConn f id ((a, b) :: rest)
      = if a = id then (a, ⟨b.cb, f b.status⟩) :: rest
        else (a, b) :: updateConn f id rest := rfl

theorem updateConn_of_lookup_none (f : ConnStatus → ConnStatus) (id : ℕ) :
    ∀ l : List (ℕ × ConnInfo), l.lookup id = none → updateConn f id l = l := by
  intro l
  induction l with
  | nil => intro _; rfl
  | cons p rest ih =>
    obtain ⟨a, b⟩ := p
    intro h
    rw [lookup_cons_pair] at h
    by_cases ha : id = a
    · rw [if_pos ha] at h; exact absurd h (by simp)
    · rw [if_neg ha] at h
      rw [updateConn_cons, if_neg (fun hh => ha hh.symm), ih h]

theorem liveLen_updateConn (f : ConnStatus → ConnStatus) (id : ℕ) :
    ∀ (l : List (ℕ × ConnInfo)) (info : ConnInfo), l.lookup id = some info →
      liveLen (updateConn f id l) + liveBit info.status
        = liveLen l + liveBit (f info.status) := by
  intro l
  induction l with
  | nil => intro info h; simp [List.lookup] at h
  | cons p rest ih =>
    obtain ⟨a, b⟩ := p
    intro info h
    rw [lookup_cons_pair] at h
    by_cases ha : id = a
    · rw [if_pos ha] at h
      injection h with hb
      subst hb
      rw [updateConn_cons, if_pos ha.symm, liveLen_cons, liveLen_cons]
      dsimp only
      omega
    · rw [if_neg ha] at h
      rw [updateConn_cons, if_neg (fun hh => ha hh.symm), liveLen_cons, liveLen_cons]
      have := ih info h
      omega

theorem lookup_updateConn (f : ConnStatus → ConnStatus) (id : ℕ) :
    ∀ l : List (ℕ × ConnInfo),
      (updateConn f id l).lookup id
        = (l.lookup id).map (fun info => ⟨info.cb, f info.status⟩) := by
  intro l
  induction l with
  | nil => rfl
  | cons p rest ih =>
    obtain ⟨a, b⟩ := p
    by_cases ha : a = id
    · rw [updateConn_cons, if_pos ha, lookup_cons_pair, lookup_cons_pair,
          if_pos ha.symm, if_pos ha.symm]
      rfl
    · rw [updateConn_cons, if_neg ha, lookup_cons_pair, lookup_cons_pair,
          if_neg (fun hh => ha hh.symm), if_neg (fun hh => ha hh.symm), ih]

theorem liveBit_closeStatus (st : ConnStatus) : liveBit (closeStatus st) = liveBit st := by
  cases st <;> rfl

theorem liveCount_openConn (s : AdapterState) (cb : ℕ) :
    liveCount (openConn s cb) = liveCount s + 1 := by
  show liveLen ((s.nextId, ⟨cb, ConnStatus.connecting⟩) :: s.conns) = liveLen s.conns + 1
  rw [liveLen_cons]
  have h1 : liveBit ConnStatus.connecting = 1 := by decide
  dsimp only
  omega

/-! Equation lemmas for `applyEvent` and `disconnectRun`, splitting on
the lookups their bodies match on. -/

theorem disconnectRun_none (s : AdapterState) (hw : s.wsConnection = none) :
    disconnectRun s = s := by
  unfold disconnectRun; rw [hw]

theorem disconnectRun_some (s : AdapterState) (id : ℕ) (hw : s.wsConnection = some id) :
    disconnectRun s
      = { s with wsConnection := none, conns := updateConn closeStatus id s.conns } := by
  unfold disconnectRun; rw [hw]

theorem applyEvent_tick (s : AdapterState) (d : ℕ) :
    applyEvent s (.tick d) = some { s with time := s.time + d } := rfl

theorem applyEvent_subscribe (s : AdapterState) (cb : ℕ) :
    applyEvent s (.subscribeCall cb) = some (openConn s cb) := rfl

theorem applyEvent_disconnect (s : AdapterState) :
    applyEvent s .disconnectCall = some (disconnectRun s) := rfl

theorem applyEvent_openEvt_none (s : AdapterState) (id : ℕ)
    (hl : s.conns.lookup id = none) : applyEvent s (.openEvt id) = none := by
  unfold applyEvent
  dsimp only
  rw [hl]

theorem applyEvent_openEvt_some (s : AdapterState) (id : ℕ) (info : ConnInfo)
    (hl : s.conns.lookup id = some info) :
    applyEvent s (.openEvt id)
      = if info.status = .connecting then
          some { s with conns := updateConn (fun _ => .opened) id s.conns }
        else none := by
  unfold applyEvent
  dsimp only
  rw [hl]

theorem applyEvent_closeEvt_none (s : AdapterState) (id : ℕ)
    (hl : s.conns.lookup id = none) : applyEvent s (.closeEvt id) = none := by
  unfold applyEvent
  dsimp only
  rw [hl]

theorem applyEvent_closeEvt_some (s : AdapterState) (id : ℕ) (info : ConnInfo)
    (hl : s.conns.lookup id = some info) :
    applyEvent s (.closeEvt id)
      = if info.status = .closed then none
        else some { s with conns := updateConn (fun _ => .closed) id s.conns,
                           timers := (s.time + 5000, info.cb) :: s.timers } := by
  unfold applyEvent
  dsimp only
  rw [hl]

theorem applyEvent_timerFire (s : AdapterState) (due cb : ℕ) :
    applyEvent s (.timerFire due cb)
      = if (due, cb) ∈ s.timers ∧ due ≤ s.time then
          some (openConn { s with timers := s.timers.erase (due, cb) } cb)
        else none := rfl

theorem tokenCount_applyEvent (s s' : AdapterState) (e : Event)
    (h : applyEvent s e = some s') :
    tokenCount s' = tokenCount s + (if isSub e then 1 else 0) := by
  cases e with
  | tick d =>
    rw [applyEvent_tick] at h
    injection h with h
    subst h
    rfl
  | subscribeCall cb =>
    rw [applyEvent_subscribe] at h
    injection h with h
    subst h
    show tokenCount (openConn s cb) = tokenCount s + 1
    have ht : (openConn s cb).timers = s.timers := rfl
    simp only [tokenCount, liveCount_openConn, ht]
    omega
  | openEvt id =>
    cases hl : s.conns.lookup id with
    | none => rw [applyEvent_openEvt_none s id hl] at h; exact absurd h (by simp)
    | some info =>
      rw [applyEvent_openEvt_some s id info hl] at h
      by_cases hst : info.status = ConnStatus.connecting
      · rw [if_pos hst] at h
        injection h with h
        subst h
        show tokenCount _ = tokenCount s + 0
        rw [tokenCount_def, tokenCount_def]
        have hcnt := liveLen_updateConn (fun _ => ConnStatus.opened) id s.conns info hl
        rw [hst] at hcnt
        have e1 : liveBit ConnStatus.connecting = 1 := by decide
        have e2 : liveBit ConnStatus.opened = 1 := by decide
        rw [e1, e2] at hcnt
        dsimp only
        omega
      · rw [if_neg hst] at h; exact absurd h (by simp)
  | closeEvt id =>
    cases hl : s.conns.lookup id with
    | none => rw [applyEvent_closeEvt_none s id hl] at h; exact absurd h (by simp)
    | some info =>
      rw [applyEvent_closeEvt_some s id info hl] at h
      by_cases hst : info.status = ConnStatus.closed
      · rw [if_pos hst] at h; exact absurd h (by simp)
      · rw [if_neg hst] at h
        injection h with h
        subst h
        show tokenCount _ = tokenCount s + 0
        rw [tokenCount_def, tokenCount_def]
        have hcnt := liveLen_updateConn (fun _ => ConnStatus.closed) id s.conns info hl
        have e1 : liveBit ConnStatus.closed = 0 := by decide
        have e2 : liveBit info.status = 1 := by
          unfold liveBit
          rw [if_neg hst]
        rw [e1, e2] at hcnt
        dsimp only
        rw [List.length_cons]
        omega
  | timerFire due cb =>
    rw [applyEvent_timerFire] at h
    by_cases hg : (due, cb) ∈ s.timers ∧ due ≤ s.time
    · rw [if_pos hg] at h
      injection h with h
      subst h
      have hlen := List.length_erase_of_mem hg.1
      have hpos : 0 < s.timers.length := List.length_pos.mpr (List.ne_nil_of_mem hg.1)
      show tokenCount _ = tokenCount s + 0
      rw [tokenCount_def, tokenCount_def]
      have e1 : liveLen (openConn { s with timers := s.timers.erase (due, cb) } cb).conns
          = liveLen s.conns + 1 := liveCount_openConn { s with timers := s.timers.erase (due, cb) } cb
      have e2 : (openConn { s with timers := s.timers.erase (due, cb) } cb).timers
          = s.timers.erase (due, cb) := rfl
      rw [e1, e2, hlen]
      omega
    · rw [if_neg hg] at h; exact absurd h (by simp)
  | disconnectCall =>
    rw [applyEvent_disconnect] at h
    injection h with h
    subst h
    show tokenCount (disconnectRun s) = tokenCount s + 0
    cases hw : s.wsConnection with
    | none => rw [disconnectRun_none s hw]; omega
    | some id =>
      rw [disconnectRun_some s id hw, tokenCount_def, tokenCount_def]
      cases hl : s.conns.lookup id with
      | none =>
        rw [updateConn_of_lookup_none closeStatus id s.conns hl]
        dsimp only
        omega
      | some info =>
        have hcnt := liveLen_updateConn closeStatus id s.conns info hl
        rw [liveBit_closeStatus] at hcnt
        dsimp only
        omega

theorem tokenCount_foldlM :
    ∀ (es : List Event) (s0 s : AdapterState),
      List.foldlM applyEvent s0 es = some s →
      tokenCount s = tokenCount s0 + subCount es := by
  intro es
  induction es with
  | nil =>
    intro s0 s h
    simp only [List.foldlM_nil] at h
    cases h
    simp [subCount]
  | cons e rest ih =>
    intro s0 s h
    simp only [List.foldlM_cons] at h
    cases h1 : applyEvent s0 e with
    | none => rw [h1] at h; exact absurd h (by simp)
    | some s1 =>
      rw [h1] at h
      have h2 : List.foldlM applyEvent s1 rest = some s := h
      have hstep := tokenCount_applyEvent s0 s1 e h1
      have hrest := ih s1 s h2
      have hc : subCount (e :: rest) = (if isSub e then 1 else 0) + subCount rest := by
        cases e <;> simp [subCount, isSub, List.countP_cons]
        omega
      omega

theorem tokenCount_runEvents (es : List Event) (s : AdapterState)
    (h : runEvents es = some s) :
    liveCount s + s.timers.length = subCount es := by
  have := tokenCount_foldlM es initState s h
  simpa [tokenCount, initState, liveCount, liveLen] using this

/-! ## Helper lemmas for the mid-price map -/

theorem mem_keys_midPricesOf (pf : Json → ℚ) (fields : List (String × Json)) (k : String) :
    k ∈ (midPricesOf pf (.obj fields)).map Prod.fst → ∃ s, (k, Json.str s) ∈ fields := by
  induction fields with
  | nil => intro h; simp [midPricesOf, jsEntries] at h
  | cons kv rest ih =>
    intro h
    obtain ⟨k0, v0⟩ := kv
    cases v0 with
    | str s0 =>
      simp only [midPricesOf, jsEntries, List.filterMap_cons] at h
      simp only [List.map_cons, List.mem_cons] at h
      rcases h with h | h
      · exact ⟨s0, by simp [h]⟩
      · obtain ⟨s, hs⟩ := ih h
        exact ⟨s, List.mem_cons_of_mem _ hs⟩
    | null =>
      simp only [midPricesOf, jsEntries, List.filterMap_cons] at h
      obtain ⟨s, hs⟩ := ih h
      exact ⟨s, List.mem_cons_of_mem _ hs⟩
    | bool b =>
      simp only [midPricesOf, jsEntries, List.filterMap_cons] at h
      obtain ⟨s, hs⟩ := ih h
      exact ⟨s, List.mem_cons_of_mem _ hs⟩
    | num q =>
      simp only [midPricesOf, jsEntries, List.filterMap_cons] at h
      obtain ⟨s, hs⟩ := ih h
      exact ⟨s, List.mem_cons_of_mem _ hs⟩
    | arr xs =>
      simp only [midPricesOf, jsEntries, List.filterMap_cons] at h
      obtain ⟨s, hs⟩ := ih h
      exact ⟨s, List.mem_cons_of_mem _ hs⟩
    | obj fs =>
      simp only [midPricesOf, jsEntries, List.filterMap_cons] at h
      obtain ⟨s, hs⟩ := ih h
      exact ⟨s, List.mem_cons_of_mem _ hs⟩

theorem nodup_keys_eq (l : List (String × Json)) (h : (l.map Prod.fst).Nodup)
    (k : String) (a b : Json) (ha : (k, a) ∈ l) (hb : (k, b) ∈ l) : a = b := by
  induction l with
  | nil => simp at ha
  | cons p rest ih =>
    rw [List.map_cons, List.nodup_cons] at h
    rcases List.mem_cons.mp ha with h1 | h1 <;> rcases List.mem_cons.mp hb with h2 | h2
    · rw [← h1] at h2
      injection h2 with hk hv
      exact hv.symm
    · exfalso
      apply h.1
      rw [← h1]
      exact List.mem_map.mpr ⟨(k, b), h2, rfl⟩
    · exfalso
      apply h.1
      rw [← h2]
      exact List.mem_map.mpr ⟨(k, a), h1, rfl⟩
    · exact ih h.2 h1 h2

/-! ## Claims C2–C7 and C10 -/

/-- C2: on a successful response whose body is a JSON object,
`getAllMidPrices` returns the string-valued fields parsed as floats:
when every field is string-valued the key set and order are exactly
those of the body with each value the parsed float of its string, and
(for a body with unique keys, as `JSON.parse` produces) every
non-string-valued field is omitted from the result without the call
failing. -/
theorem c2_allMidPrices_spec :
    ∀ (pf : Json → ℚ) (st : ℕ) (fields : List (String × Json)), okStatus st = true →
      getAllMidPrices pf (.resp st (.ok (.obj fields))) = .ok (midPricesOf pf (.obj fields)) ∧
      ((∀ kv ∈ fields, kv.2.isStr = true) →
        midPricesOf pf (.obj fields) = fields.map (fun kv => (kv.1, pf kv.2))) ∧
      ((fields.map Prod.fst).Nodup →
        ∀ k v, (k, v) ∈ fields → v.isStr = false →
          k ∉ (midPricesOf pf (.obj fields)).map Prod.fst) := by
  intro pf st fields hok
  refine ⟨by simp [getAllMidPrices, hok], ?_, ?_⟩
  · intro hall
    induction fields with
    | nil => rfl
    | cons kv rest ih =>
      obtain ⟨k0, v0⟩ := kv
      have hhd : Json.isStr v0 = true := hall (k0, v0) (List.mem_cons_self _ _)
      cases v0 <;> simp [Json.isStr] at hhd
      simp only [midPricesOf, jsEntries, List.filterMap_cons, List.map_cons]
      have := ih (fun kv hkv => hall kv (List.mem_cons_of_mem _ hkv))
      simp only [midPricesOf, jsEntries] at this
      rw [this]
  · intro hnd k v hkv hvstr hmem
    obtain ⟨s, hs⟩ := mem_keys_midPricesOf pf fields k hmem
    have hv := nodup_keys_eq fields hnd k v (.str s) hkv hs
    rw [hv] at hvstr
    simp [Json.isStr] at hvstr

/-- C2 witness: a concrete body with one string field and one numeric
field maps to the parsed string field only. -/
theorem c2_witness :
    getAllMidPrices pfJS (.resp 200 (.ok (.obj [("HYPE", .str "25"), ("X", .num 3)])))
      = .ok (midPricesOf pfJS (.obj [("HYPE", .str "25"), ("X", .num 3)])) ∧
    "X" ∉ (midPricesOf pfJS (.obj [("HYPE", .str "25"), ("X", .num 3)])).map Prod.fst := by
  obtain ⟨h1, h2, h3⟩ :=
    c2_allMidPrices_spec pfJS 200 [("HYPE", .str "25"), ("X", .num 3)] (by decide)
  exact ⟨h1, h3 (by decide) "X" (.num 3) (by simp) rfl⟩

/-- C3: on a successful response, `getOrderBook` separates the parsed
signed-size levels into bids (positive sizes) and asks (negative sizes
with the sign flipped to positive); a body without a `levels` field
yields empty sides rather than failing; the concrete levels
`[{px:"10", sz:"5"}, {px:"9", sz:"-3"}]` yield `bids=[[10,5]]`,
`asks=[[9,3]]`. -/
theorem c3_orderBook_spec :
    ∀ (pf : Json → ℚ) (now : ℤ) (st : ℕ) (ls : List Json), okStatus st = true →
      (getOrderBook pf now (.resp st (.ok (.obj [("levels", .arr ls)])))
        = .ok ⟨(ls.map (parseLevel pf)).filter (fun p => decide (0 < p.2)),
               ((ls.map (parseLevel pf)).filter (fun p => decide (p.2 < 0))).map
                 (fun p => (p.1, |p.2|)),
               now⟩) ∧
      (∀ b : Json, b ≠ .null → jsonLookup b "levels" = none →
        getOrderBook pf now (.resp st (.ok b)) = .ok ⟨[], [], now⟩) ∧
      (getOrderBook pfJS now (.resp st (.ok (.obj [("levels",
          .arr [.obj [("px", .str "10"), ("sz", .str "5")],
                .obj [("px", .str "9"), ("sz", .str "-3")]])])))
        = .ok ⟨[(10, 5)], [(9, 3)], now⟩) := by
  intro pf now st ls hok
  refine ⟨?_, ?_, ?_⟩
  · simp only [getOrderBook, hok]
    rw [if_pos trivial]
    rfl
  · intro b hb hlk
    cases b with
    | null => exact absurd rfl hb
    | obj fs =>
      simp only [jsonLookup] at hlk
      simp only [getOrderBook, hok, jsonLookup]
      rw [if_pos trivial, hlk]
    | bool v => simp only [getOrderBook, hok]; rw [if_pos trivial]; rfl
    | num v => simp only [getOrderBook, hok]; rw [if_pos trivial]; rfl
    | str v => simp only [getOrderBook, hok]; rw [if_pos trivial]; rfl
    | arr v => simp only [getOrderBook, hok]; rw [if_pos trivial]; rfl
  · have h10 : parseRat "10" = 10 := by
      show (1 : ℚ) * (((10 : ℕ) : ℚ) + ((0 : ℕ) : ℚ) / 10 ^ (0 : ℕ)) = 10
      push_cast
      norm_num
    have h5 : parseRat "5" = 5 := by
      show (1 : ℚ) * (((5 : ℕ) : ℚ) + ((0 : ℕ) : ℚ) / 10 ^ (0 : ℕ)) = 5
      push_cast
      norm_num
    have h9 : parseRat "9" = 9 := by
      show (1 : ℚ) * (((9 : ℕ) : ℚ) + ((0 : ℕ) : ℚ) / 10 ^ (0 : ℕ)) = 9
      push_cast
      norm_num
    have hm3 : parseRat "-3" = -3 := by
      show (-1 : ℚ) * (((3 : ℕ) : ℚ) + ((0 : ℕ) : ℚ) / 10 ^ (0 : ℕ)) = -3
      push_cast
      norm_num
    simp only [getOrderBook, hok]
    rw [if_pos trivial]
    show Except.ok (⟨List.filter (fun p => decide (0 < p.2))
          [(parseRat "10", parseRat "5"), (parseRat "9", parseRat "-3")],
        List.map (fun p => (p.1, |p.2|)) (List.filter (fun p => decide (p.2 < 0))
          [(parseRat "10", parseRat "5"), (parseRat "9", parseRat "-3")]),
        now⟩ : OrderBook)
      = Except.ok ⟨[(10, 5)], [(9, 3)], now⟩
    rw [h10, h5, h9, hm3]
    norm_num [List.filter_cons]

/-- C3 witness: the concrete order-book example evaluated end to end. -/
theorem c3_witness :
    getOrderBook pfJS 0 (.resp 200 (.ok (.obj [("levels",
        .arr [.obj [("px", .str "10"), ("sz", .str "5")],
              .obj [("px", .str "9"), ("sz", .str "-3")]])])))
      = .ok ⟨[(10, 5)], [(9, 3)], 0⟩ :=
  (c3_orderBook_spec pfJS 0 200 [] (by decide)).2.2

/-- C4: whenever the underlying request of `getFundingRates` fails —
network error, non-success HTTP status, or body-parse error — the
result is exactly the mapping `{BTC: 0.0001, ETH: 0.00005}` and no
error reaches the caller. -/
theorem c4_fundingRates_fallback :
    (∀ m, getFundingRates (.netFail m)
      = .obj [("BTC", .num (1 / 10000)), ("ETH", .num (1 / 20000))]) ∧
    (∀ st body, okStatus st = false → getFundingRates (.resp st body)
      = .obj [("BTC", .num (1 / 10000)), ("ETH", .num (1 / 20000))]) ∧
    (∀ st m, okStatus st = true → getFundingRates (.resp st (.error m))
      = .obj [("BTC", .num (1 / 10000)), ("ETH", .num (1 / 20000))]) := by
  refine ⟨fun m => rfl, ?_, ?_⟩
  · intro st body hok
    simp only [getFundingRates, hok]
    rw [if_neg (by simp)]
    rfl
  · intro st m hok
    simp only [getFundingRates, hok]
    rw [if_pos trivial]
    rfl

/-- C4 witness: a 500 status and a parse failure both yield the exact
fallback mapping. -/
theorem c4_witness :
    getFundingRates (.resp 500 (.ok (.obj [("rates", .obj [("BTC", .num 7)])])))
      = .obj [("BTC", .num (1 / 10000)), ("ETH", .num (1 / 20000))] ∧
    getFundingRates (.resp 200 (.error "unexpected token"))
      = .obj [("BTC", .num (1 / 10000)), ("ETH", .num (1 / 20000))] := by
  obtain ⟨h1, h2, h3⟩ := c4_fundingRates_fallback
  exact ⟨h2 500 _ (by decide), h3 200 _ (by decide)⟩

/-- C5: on any request failure — network error, non-success HTTP
status, or body-parse error — and for every value of the random source
in [0,1), `getHistoricalRates asset days` falls back to the mock
series: exactly `days+1` points, timestamps strictly increasing and
spaced exactly one day apart, ending at the current time, each rate
within `0.000025` of the per-asset base rate (`0.0001` for BTC,
`0.00005` otherwise); in particular BTC over 5 days gives 6 points. -/
theorem c5_mockHistoricalRates_spec :
    ∀ (rand : ℕ → ℚ) (now : ℤ) (asset : String) (days : ℕ),
      (∀ j, 0 ≤ rand j ∧ rand j < 1) →
      (getMockHistoricalRates rand now asset days).length = days + 1 ∧
      (∀ j, (hj : j + 1 < (getMockHistoricalRates rand now asset days).length) →
        (hj2 : j < (getMockHistoricalRates rand now asset days).length) →
        ((getMockHistoricalRates rand now asset days).get ⟨j + 1, hj⟩).1
            = ((getMockHistoricalRates rand now asset days).get ⟨j, hj2⟩).1 + msPerDay ∧
        ((getMockHistoricalRates rand now asset days).get ⟨j, hj2⟩).1
            < ((getMockHistoricalRates rand now asset days).get ⟨j + 1, hj⟩).1) ∧
      (∀ hlast : days < (getMockHistoricalRates rand now asset days).length,
        ((getMockHistoricalRates rand now asset days).get ⟨days, hlast⟩).1 = now) ∧
      (∀ p ∈ getMockHistoricalRates rand now asset days,
        baseRate asset - 1 / 40000 ≤ p.2 ∧ p.2 ≤ baseRate asset + 1 / 40000) ∧
      (∀ m, getHistoricalRates rand now asset days (.netFail m)
        = .arr ((getMockHistoricalRates rand now asset days).map encodePoint)) ∧
      (∀ st body, okStatus st = false →
        getHistoricalRates rand now asset days (.resp st body)
          = .arr ((getMockHistoricalRates rand now asset days).map encodePoint)) ∧
      (∀ st m, okStatus st = true →
        getHistoricalRates rand now asset days (.resp st (.error m))
          = .arr ((getMockHistoricalRates rand now asset days).map encodePoint)) := by
  intro rand now asset days hrand
  have hlen : (getMockHistoricalRates rand now asset days).length = days + 1 := by
    simp [getMockHistoricalRates]
  have hget : ∀ j, (hj : j < (getMockHistoricalRates rand now asset days).length) →
      (getMockHistoricalRates rand now asset days).get ⟨j, hj⟩
        = (now - ((days - j : ℕ) : ℤ) * msPerDay,
           baseRate asset + (rand j - 1 / 2) * (1 / 20000)) := by
    intro j hj
    simp [getMockHistoricalRates, List.get_eq_getElem]
  refine ⟨hlen, ?_, ?_, ?_, fun m => rfl, ?_, ?_⟩
  · intro j hj hj2
    rw [hget (j + 1) hj, hget j hj2]
    rw [hlen] at hj
    constructor
    · show now - ((days - (j + 1) : ℕ) : ℤ) * msPerDay
          = now - ((days - j : ℕ) : ℤ) * msPerDay + msPerDay
      have hsub : (days - j : ℕ) = (days - (j + 1) : ℕ) + 1 := by omega
      rw [hsub]
      push_cast
      unfold msPerDay
      ring
    · show now - ((days - j : ℕ) : ℤ) * msPerDay
          < now - ((days - (j + 1) : ℕ) : ℤ) * msPerDay
      have hsub : (days - j : ℕ) = (days - (j + 1) : ℕ) + 1 := by omega
      rw [hsub]
      push_cast
      unfold msPerDay
      linarith
  · intro hlast
    rw [hget days hlast]
    simp
  · intro p hp
    simp only [getMockHistoricalRates, List.mem_map, List.mem_range] at hp
    obtain ⟨j, hj, hpj⟩ := hp
    rw [← hpj]
    obtain ⟨hr0, hr1⟩ := hrand j
    constructor
    · show baseRate asset - 1 / 40000 ≤ baseRate asset + (rand j - 1 / 2) * (1 / 20000)
      linarith
    · show baseRate asset + (rand j - 1 / 2) * (1 / 20000) ≤ baseRate asset + 1 / 40000
      linarith
  · intro st body hok
    simp only [getHistoricalRates, hok]
    rw [if_neg (by simp)]
  · intro st m hok
    simp only [getHistoricalRates, hok]
    rw [if_pos trivial]

/-- C5 witness: the mock series for BTC over 5 days with a constant
random source has exactly 6 points, all within the rate band, and
each failure mode of the request — network error, non-success status,
parse error — yields exactly that mock series. -/
theorem c5_witness :
    (getMockHistoricalRates (fun _ => 1 / 2) 0 "BTC" 5).length = 6 ∧
    (∀ p ∈ getMockHistoricalRates (fun _ => 1 / 2) 0 "BTC" 5,
      baseRate "BTC" - 1 / 40000 ≤ p.2 ∧ p.2 ≤ baseRate "BTC" + 1 / 40000) ∧
    getHistoricalRates (fun _ => 1 / 2) 0 "BTC" 5 (.netFail "network down")
      = .arr ((getMockHistoricalRates (fun _ => 1 / 2) 0 "BTC" 5).map encodePoint) ∧
    getHistoricalRates (fun _ => 1 / 2) 0 "BTC" 5 (.resp 500 (.ok (.obj [])))
      = .arr ((getMockHistoricalRates (fun _ => 1 / 2) 0 "BTC" 5).map encodePoint) ∧
    getHistoricalRates (fun _ => 1 / 2) 0 "BTC" 5 (.resp 200 (.error "bad json"))
      = .arr ((getMockHistoricalRates (fun _ => 1 / 2) 0 "BTC" 5).map encodePoint) := by
  obtain ⟨h1, h2, h3, h4, h5, h6, h7⟩ :=
    c5_mockHistoricalRates_spec (fun _ => 1 / 2) 0 "BTC" 5 (fun j => by norm_num)
  exact ⟨h1, h4, h5 "network down", h6 500 _ (by decide), h7 200 _ (by decide)⟩

/-- C6: `getCurrentPrice` propagates every failure to the caller: a
non-success status or an unparseable body yields the upstream error, a
parsed body without a (truthy) `HYPE` field yields the not-found error,
and a nonempty `HYPE` price string yields its parsed float. -/
theorem c6_getCurrentPrice_errors :
    ∀ pf : Json → ℚ,
      (∀ m, getCurrentPrice pf (.netFail m) = .error (.upstream m)) ∧
      (∀ st body, okStatus st = false →
        getCurrentPrice pf (.resp st body) = .error (.upstream (statusMsg st))) ∧
      (∀ st m, okStatus st = true →
        getCurrentPrice pf (.resp st (.error m)) = .error (.upstream m)) ∧
      (∀ st b, okStatus st = true → b ≠ .null → jsonLookup b "HYPE" = none →
        getCurrentPrice pf (.resp st (.ok b))
          = .error (.notFound "HYPE price not found in response")) ∧
      (∀ st b s, okStatus st = true → jsonLookup b "HYPE" = some (.str s) → s ≠ "" →
        getCurrentPrice pf (.resp st (.ok b)) = .ok (pf (.str s))) := by
  intro pf
  refine ⟨fun m => rfl, ?_, ?_, ?_, ?_⟩
  · intro st body hok
    simp only [getCurrentPrice, hok]
    rw [if_neg (by simp)]
  · intro st m hok
    simp only [getCurrentPrice, hok]
    rw [if_pos trivial]
  · intro st b hok hb hlk
    cases b with
    | null => exact absurd rfl hb
    | obj fs =>
      simp only [jsonLookup] at hlk
      simp only [getCurrentPrice, hok, jsonLookup]
      rw [if_pos trivial, hlk]
    | bool v => simp only [getCurrentPrice, hok]; rw [if_pos trivial]; rfl
    | num v => simp only [getCurrentPrice, hok]; rw [if_pos trivial]; rfl
    | str v => simp only [getCurrentPrice, hok]; rw [if_pos trivial]; rfl
    | arr v => simp only [getCurrentPrice, hok]; rw [if_pos trivial]; rfl
  · intro st b s hok hlk hs
    cases b with
    | obj fs =>
      simp only [jsonLookup] at hlk
      simp only [getCurrentPrice, hok, jsonLookup]
      rw [if_pos trivial, hlk]
      have ht : Json.truthy (.str s) = true := by simp [Json.truthy, hs]
      show (if (Json.str s).truthy = true then Except.ok (pf (.str s))
            else Except.error (ClientError.notFound "HYPE price not found in response"))
          = Except.ok (pf (.str s))
      rw [if_pos ht]
    | null => simp [jsonLookup] at hlk
    | bool v => simp [jsonLookup] at hlk
    | num v => simp [jsonLookup] at hlk
    | str v => simp [jsonLookup] at hlk
    | arr v => simp [jsonLookup] at hlk

/-- C6 witness: a 404 status, a body without the symbol, and a body
with a price string, each evaluated concretely. -/
theorem c6_witness :
    getCurrentPrice pfJS (.resp 404 (.ok (.obj []))) = .error (.upstream (statusMsg 404)) ∧
    getCurrentPrice pfJS (.resp 200 (.ok (.obj [("BTC", .str "3")])))
      = .error (.notFound "HYPE price not found in response") ∧
    getCurrentPrice pfJS (.resp 200 (.ok (.obj [("HYPE", .str "25.5")])))
      = .ok (pfJS (.str "25.5")) := by
  obtain ⟨h1, h2, h3, h4, h5⟩ := c6_getCurrentPrice_errors pfJS
  refine ⟨h2 404 _ (by decide), ?_, ?_⟩
  · exact h4 200 _ (by decide) (fun h => Json.noConfusion h) rfl
  · exact h5 200 _ "25.5" (by decide) rfl (by decide)

/-- C7: `placeTrade` is total on every request outcome: each failure is
wrapped into `{success: false, error: message}` (network error,
non-success status, parse failure, and a null body whose property
access throws), while a successful non-null body yields
`{success: true, tradeId: data.tradeId}`. -/
theorem c7_placeTrade_total :
    (∀ m, placeTrade (.netFail m) = ⟨false, none, some m⟩) ∧
    (∀ st body, okStatus st = false →
      placeTrade (.resp st body) = ⟨false, none, some (statusMsg st)⟩) ∧
    (∀ st m, okStatus st = true →
      placeTrade (.resp st (.error m)) = ⟨false, none, some m⟩) ∧
    (∀ st, okStatus st = true →
      placeTrade (.resp st (.ok .null))
        = ⟨false, none, some "TypeError: cannot read properties of null"⟩) ∧
    (∀ st b, okStatus st = true → b ≠ .null →
      placeTrade (.resp st (.ok b)) = ⟨true, jsonLookup b "tradeId", none⟩) := by
  refine ⟨fun m => rfl, ?_, ?_, ?_, ?_⟩
  · intro st body hok
    simp only [placeTrade, hok]
    rw [if_neg (by simp)]
  · intro st m hok
    simp only [placeTrade, hok]
    rw [if_pos trivial]
  · intro st hok
    simp only [placeTrade, hok]
    rw [if_pos trivial]
  · intro st b hok hb
    cases b with
    | null => exact absurd rfl hb
    | obj fs => simp only [placeTrade, hok]; rw [if_pos trivial]
    | bool v => simp only [placeTrade, hok]; rw [if_pos trivial]
    | num v => simp only [placeTrade, hok]; rw [if_pos trivial]
    | str v => simp only [placeTrade, hok]; rw [if_pos trivial]
    | arr v => simp only [placeTrade, hok]; rw [if_pos trivial]

/-- C7 witness: a failed status wraps the status message; a success
body carries its tradeId. -/
theorem c7_witness :
    placeTrade (.resp 503 (.ok (.obj []))) = ⟨false, none, some (statusMsg 503)⟩ ∧
    placeTrade (.resp 200 (.ok (.obj [("tradeId", .str "t-1")])))
      = ⟨true, some (.str "t-1"), none⟩ := by
  obtain ⟨h1, h2, h3, h4, h5⟩ := c7_placeTrade_total
  exact ⟨h2 503 _ (by decide), h5 200 _ (by decide) (fun h => Json.noConfusion h)⟩

/-! ## Claim C10 (read operations on success responses) -/

/-- C10 counterexample: a success response whose body parses to JSON
`null` lacks the `rates` field, yet `getFundingRates` substitutes the
mock fallback (the property access itself throws and is caught), not
the empty mapping — so the mock substitution does not happen only when
the request, the status check, or the body parse throws. -/
theorem c10_counterexample :
    getFundingRates (.resp 200 (.ok .null))
      = .obj [("BTC", .num (1 / 10000)), ("ETH", .num (1 / 20000))] ∧
    Json.obj [("BTC", .num (1 / 10000)), ("ETH", .num (1 / 20000))] ≠ .obj [] := by
  refine ⟨rfl, fun h => ?_⟩
  simp at h

/-- C10 amended: for a successful response whose JSON body parses to a
non-null value lacking the expected field, each read operation returns
the empty sequence or mapping — which differs from the (nonempty) mock
data of the three operations that have mock fallbacks. -/
theorem c10_empty_on_missing_field :
    ∀ (st : ℕ) (b : Json), okStatus st = true → b ≠ .null →
      ((jsonLookup b "yieldUnits" = none →
        ∀ now, getYieldUnits now (.resp st (.ok b)) = .arr []) ∧
       (jsonLookup b "rates" = none →
        getFundingRates (.resp st (.ok b)) = .obj []) ∧
       (jsonLookup b "rates" = none →
        ∀ rand now asset days,
          getHistoricalRates rand now asset days (.resp st (.ok b)) = .arr []) ∧
       (jsonLookup b "positions" = none →
        ∀ addr, getPositions addr (.resp st (.ok b)) = .arr [])) ∧
      (∀ now, Json.arr [] ≠ .arr ((getMockYieldUnits now).map encodeYieldUnit)) ∧
      (Json.obj [] ≠ fallbackRates) ∧
      (∀ rand now asset days,
        Json.arr [] ≠ .arr ((getMockHistoricalRates rand now asset days).map encodePoint)) := by
  intro st b hok hb
  have hfo : ∀ k dflt, jsonLookup b k = none → fieldOr b k dflt = dflt := by
    intro k dflt hlk
    unfold fieldOr
    rw [hlk]
  refine ⟨⟨?_, ?_, ?_, ?_⟩, ?_, ?_, ?_⟩
  · intro hlk now
    cases b with
    | null => exact absurd rfl hb
    | obj fs =>
      simp only [getYieldUnits, hok]
      rw [if_pos trivial]
      exact hfo "yieldUnits" (.arr []) hlk
    | bool v => simp only [getYieldUnits, hok]; rw [if_pos trivial]; exact hfo _ _ hlk
    | num v => simp only [getYieldUnits, hok]; rw [if_pos trivial]; exact hfo _ _ hlk
    | str v => simp only [getYieldUnits, hok]; rw [if_pos trivial]; exact hfo _ _ hlk
    | arr v => simp only [getYieldUnits, hok]; rw [if_pos trivial]; exact hfo _ _ hlk
  · intro hlk
    cases b with
    | null => exact absurd rfl hb
    | obj fs => simp only [getFundingRates, hok]; rw [if_pos trivial]; exact hfo _ _ hlk
    | bool v => simp only [getFundingRates, hok]; rw [if_pos trivial]; exact hfo _ _ hlk
    | num v => simp only [getFundingRates, hok]; rw [if_pos trivial]; exact hfo _ _ hlk
    | str v => simp only [getFundingRates, hok]; rw [if_pos trivial]; exact hfo _ _ hlk
    | arr v => simp only [getFundingRates, hok]; rw [if_pos trivial]; exact hfo _ _ hlk
  · intro hlk rand now asset days
    cases b with
    | null => exact absurd rfl hb
    | obj fs => simp only [getHistoricalRates, hok]; rw [if_pos trivial]; exact hfo _ _ hlk
    | bool v => simp only [getHistoricalRates, hok]; rw [if_pos trivial]; exact hfo _ _ hlk
    | num v => simp only [getHistoricalRates, hok]; rw [if_pos trivial]; exact hfo _ _ hlk
    | str v => simp only [getHistoricalRates, hok]; rw [if_pos trivial]; exact hfo _ _ hlk
    | arr v => simp only [getHistoricalRates, hok]; rw [if_pos trivial]; exact hfo _ _ hlk
  · intro hlk addr
    cases b with
    | null => exact absurd rfl hb
    | obj fs => simp only [getPositions, hok]; rw [if_pos trivial]; exact hfo _ _ hlk
    | bool v => simp only [getPositions, hok]; rw [if_pos trivial]; exact hfo _ _ hlk
    | num v => simp only [getPositions, hok]; rw [if_pos trivial]; exact hfo _ _ hlk
    | str v => simp only [getPositions, hok]; rw [if_pos trivial]; exact hfo _ _ hlk
    | arr v => simp only [getPositions, hok]; rw [if_pos trivial]; exact hfo _ _ hlk
  · intro now h
    simp [getMockYieldUnits] at h
  · intro h
    simp [fallbackRates] at h
  · intro rand now asset days h
    have hlen : ((getMockHistoricalRates rand now asset days).map encodePoint).length
        = days + 1 := by simp [getMockHistoricalRates]
    injection h with h
    rw [← h] at hlen
    simp at hlen

/-- C10 witness: a concrete object body without the expected fields
yields empty results for all four read operations. -/
theorem c10_witness :
    getYieldUnits 0 (.resp 200 (.ok (.obj [("foo", .num 1)]))) = .arr [] ∧
    getFundingRates (.resp 200 (.ok (.obj [("foo", .num 1)]))) = .obj [] ∧
    getHistoricalRates (fun _ => 0) 0 "BTC" 5 (.resp 200 (.ok (.obj [("foo", .num 1)])))
      = .arr [] ∧
    getPositions "0xabc" (.resp 200 (.ok (.obj [("foo", .num 1)]))) = .arr [] := by
  obtain ⟨⟨h1, h2, h3, h4⟩, h5, h6, h7⟩ :=
    c10_empty_on_missing_field 200 (.obj [("foo", .num 1)]) (by decide)
      (fun h => Json.noConfusion h)
  exact ⟨h1 rfl 0, h2 rfl, h3 rfl (fun _ => 0) 0 "BTC" 5, h4 rfl "0xabc"⟩

/-! ## Claims C1, C8, C9 (subscription lifecycle) -/

/-- C1 counterexample: two `subscribeToUpdates` calls in a row from a
fresh adapter leave two live connections at once — the second call
opens a new connection while the first is neither closed nor past any
delay, refuting the at-most-one-active-connection invariant for
arbitrary call sequences. -/
theorem c1_counterexample :
    runEvents [.subscribeCall 0, .subscribeCall 0]
      = some ⟨0, 2, some 1, [(1, ⟨0, .connecting⟩), (0, ⟨0, .connecting⟩)], []⟩ ∧
    liveCount ⟨0, 2, some 1, [(1, ⟨0, .connecting⟩), (0, ⟨0, .connecting⟩)], []⟩ = 2 :=
  ⟨rfl, rfl⟩

/-- C1 amended: live connections plus pending reconnect timers always
equal the number of external subscribe calls; hence under any event
sequence with at most one subscribe call there is at most one live
connection at any time, and a scheduled reconnect can fire only when no
connection is live (the previous one has fully closed) and only at or
after its due time, 5 seconds past the close that scheduled it. -/
theorem c1_single_subscribe_invariant :
    ∀ (es : List Event) (s : AdapterState), runEvents es = some s →
      liveCount s + s.timers.length = subCount es ∧
      (subCount es ≤ 1 → liveCount s ≤ 1) ∧
      (subCount es ≤ 1 → ∀ due cb s2, applyEvent s (.timerFire due cb) = some s2 →
        liveCount s = 0 ∧ due ≤ s.time) := by
  intro es s h
  have hc := tokenCount_runEvents es s h
  refine ⟨hc, fun h1 => by omega, fun h1 due cb s2 hf => ?_⟩
  rw [applyEvent_timerFire] at hf
  by_cases hg : (due, cb) ∈ s.timers ∧ due ≤ s.time
  · have hpos : 0 < s.timers.length := List.length_pos.mpr (List.ne_nil_of_mem hg.1)
    exact ⟨by omega, hg.2⟩
  · rw [if_neg hg] at hf
    exact absurd hf (by simp)

/-- C1 witness: the single-subscribe trace evaluated concretely. -/
theorem c1_witness :
    liveCount ⟨0, 1, some 0, [(0, ⟨0, .connecting⟩)], []⟩ ≤ 1 :=
  (c1_single_subscribe_invariant [.subscribeCall 0]
    ⟨0, 1, some 0, [(0, ⟨0, .connecting⟩)], []⟩ rfl).2.1 (by decide)

/-- C8: each close event schedules exactly one reconnect, due exactly
5000 ms later, carrying the closed connection's callback; a scheduled
reconnect fires at most once, no earlier than its due time, and opens
exactly one new connection with the same callback; and once subscribed
the subscription never terminates — some live connection or pending
reconnect always remains. -/
theorem c8_reconnect_per_close :
    (∀ (s : AdapterState) (id : ℕ) (info : ConnInfo) (s2 : AdapterState),
      s.conns.lookup id = some info → applyEvent s (.closeEvt id) = some s2 →
      s2.timers = (s.time + 5000, info.cb) :: s.timers) ∧
    (∀ (s : AdapterState) (due cb : ℕ) (s2 : AdapterState),
      applyEvent s (.timerFire due cb) = some s2 →
      (due, cb) ∈ s.timers ∧ due ≤ s.time ∧
      s2.timers = s.timers.erase (due, cb) ∧
      s2.conns = (s.nextId, ⟨cb, .connecting⟩) :: s.conns ∧
      s2.wsConnection = some s.nextId) ∧
    (∀ (es : List Event) (s : AdapterState), runEvents es = some s →
      1 ≤ subCount es → 1 ≤ liveCount s + s.timers.length) := by
  refine ⟨?_, ?_, ?_⟩
  · intro s id info s2 hl hf
    rw [applyEvent_closeEvt_some s id info hl] at hf
    by_cases hst : info.status = ConnStatus.closed
    · rw [if_pos hst] at hf
      exact absurd hf (by simp)
    · rw [if_neg hst] at hf
      injection hf with hf
      rw [← hf]
  · intro s due cb s2 hf
    rw [applyEvent_timerFire] at hf
    by_cases hg : (due, cb) ∈ s.timers ∧ due ≤ s.time
    · rw [if_pos hg] at hf
      injection hf with hf
      rw [← hf]
      exact ⟨hg.1, hg.2, rfl, rfl, rfl⟩
    · rw [if_neg hg] at hf
      exact absurd hf (by simp)
  · intro es s h hsub
    have := tokenCount_runEvents es s h
    omega

/-- C8 witness: a pending reconnect in a concrete state fires once and
reopens a connection with the same callback. -/
theorem c8_witness :
    ((5000, 0) ∈ ([(5000, 0)] : List (ℕ × ℕ))) ∧ (5000 : ℕ) ≤ 6000 ∧
    ([] : List (ℕ × ℕ)) = ([(5000, 0)] : List (ℕ × ℕ)).erase (5000, 0) ∧
    ([(1, ⟨0, .connecting⟩), (0, ⟨0, .closed⟩)] : List (ℕ × ConnInfo))
      = (1, ⟨0, .connecting⟩) :: [(0, ⟨0, .closed⟩)] ∧
    (some 1 : Option ℕ) = some 1 :=
  c8_reconnect_per_close.2.1 ⟨6000, 1, none, [(0, ⟨0, .closed⟩)], [(5000, 0)]⟩ 5000 0
    ⟨6000, 2, some 1, [(1, ⟨0, .connecting⟩), (0, ⟨0, .closed⟩)], []⟩ rfl

/-- C9: `disconnect` never fails, requests the close of the referenced
connection if there is one, clears the reference, and is idempotent —
a second call is a no-op that leaves the reference cleared. -/
theorem c9_disconnect_idempotent :
    ∀ s : AdapterState,
      applyEvent s .disconnectCall = some (disconnectRun s) ∧
      (disconnectRun s).wsConnection = none ∧
      disconnectRun (disconnectRun s) = disconnectRun s ∧
      (∀ id info, s.wsConnection = some id →
        (disconnectRun s).conns.lookup id = some info →
        info.status = .closing ∨ info.status = .closed) := by
  intro s
  refine ⟨rfl, ?_, ?_, ?_⟩
  · cases hw : s.wsConnection with
    | none => rw [disconnectRun_none s hw, hw]
    | some id => rw [disconnectRun_some s id hw]
  · cases hw : s.wsConnection with
    | none =>
      have hd := disconnectRun_none s hw
      rw [hd, hd]
    | some id =>
      rw [disconnectRun_some s id hw]
      exact disconnectRun_none _ rfl
  · intro id info hw hl
    rw [disconnectRun_some s id hw] at hl
    show ConnInfo.status info = _ ∨ ConnInfo.status info = _
    have hlu := lookup_updateConn closeStatus id s.conns
    rw [hl] at hlu
    cases hl0 : s.conns.lookup id with
    | none =>
      rw [hl0] at hlu
      exact absurd hlu (by simp)
    | some i0 =>
      rw [hl0] at hlu
      injection hlu with hlu
      rw [hlu]
      cases hstat : i0.status <;> simp [closeStatus, hstat]

/-- C9 witness: disconnecting a concrete connected adapter clears the
reference and marks the connection closing. -/
theorem c9_witness :
    (disconnectRun ⟨0, 1, some 0, [(0, ⟨7, .opened⟩)], []⟩).wsConnection = none ∧
    (ConnStatus.closing = .closing ∨ ConnStatus.closing = .closed) := by
  obtain ⟨h1, h2, h3, h4⟩ := c9_disconnect_idempotent ⟨0, 1, some 0, [(0, ⟨7, .opened⟩)], []⟩
  exact ⟨h2, h4 0 ⟨7, .closing⟩ rfl rfl⟩

end HypeArb
